import Mathlib

/-
Verification development for the csv_scanner repository.

The scan core lives in src/ui.rs, UI::start_scan (lines 367-537) together
with the helper utf8_char_len (lines 540-552).  The definitions below are a
shallow embedding of that code: the byte stream is a List Nat, the loop is
one recursive call per iteration, machine counters (u64) are Nat, and the
fallible reads return through an explicit outcome type.  Ghost observation
data (the per-character track and the occurrence-construction events) is
collected in the result record only; the ScanState carries exactly the
mutable variables of the source.
-/

namespace CsvScan

/-- The Occurence record (src/ui.rs lines 48-54). -/
structure Occurence where
  line_number : Nat
  line_character_offset : Nat
  line_byte_offset : Nat
  total_byte_offset : Nat
deriving DecidableEq, Repr

/-- utf8_char_len (src/ui.rs lines 540-552): the byte count of the UTF-8
character starting with the given byte, from its high bits; none for a
continuation byte or an invalid leading byte. -/
def utf8_char_len (first : Nat) : Option Nat :=
  if first &&& 0b10000000 = 0 then some 1
  else if first &&& 0b11100000 = 0b11000000 then some 2
  else if first &&& 0b11110000 = 0b11100000 then some 3
  else if first &&& 0b11111000 = 0b11110000 then some 4
  else none

/-- A UTF-8 continuation byte: high bits 10. -/
def isCont (b : Nat) : Bool := b &&& 0b11000000 = 0b10000000

/-- Models std::str::from_utf8 (src/ui.rs line 462) applied to the one
character read by the loop (the leading byte plus the continuation bytes
whose count utf8_char_len prescribed), followed by chars().next(): the
decoded scalar value, or none when the bytes are not well-formed UTF-8
(bad continuation bytes, overlong encodings, surrogates, out of range). -/
def decodeUtf8 (first : Nat) (rest : List Nat) : Option Char :=
  match rest with
  | [] => if first < 0x80 then some (Char.ofNat first) else none
  | [b1] =>
      if isCont b1 then
        let cp := ((first &&& 0x1F) <<< 6) ||| (b1 &&& 0x3F)
        if 0x80 ≤ cp then some (Char.ofNat cp) else none
      else none
  | [b1, b2] =>
      if isCont b1 && isCont b2 then
        let cp := ((first &&& 0x0F) <<< 12) ||| ((b1 &&& 0x3F) <<< 6) ||| (b2 &&& 0x3F)
        if 0x800 ≤ cp ∧ ¬ (0xD800 ≤ cp ∧ cp ≤ 0xDFFF) then some (Char.ofNat cp) else none
      else none
  | [b1, b2, b3] =>
      if isCont b1 && isCont b2 && isCont b3 then
        let cp := ((first &&& 0x07) <<< 18) ||| ((b1 &&& 0x3F) <<< 12) |||
                  ((b2 &&& 0x3F) <<< 6) ||| (b3 &&& 0x3F)
        if 0x10000 ≤ cp ∧ cp ≤ 0x10FFFF then some (Char.ofNat cp) else none
      else none
  | _ => none

/-- Models Rust char::to_lowercase(...).next().unwrap() (src/ui.rs lines 387
and 470), restricted to the ASCII range: uppercase ASCII letters map to the
corresponding lowercase letter, every other character is unchanged.  The
full Unicode mapping agrees with this on ASCII, which covers all data the
claims are about. -/
def toLowerChar (c : Char) : Char :=
  if 'A' ≤ c ∧ c ≤ 'Z' then Char.ofNat (c.toNat + 32) else c

/-- The mutable variables of the scan loop (src/ui.rs lines 388-400). -/
structure ScanState where
  line_number : Nat
  line_character_offset : Nat
  line_byte_offset : Nat
  total_byte_offset : Nat
  found : List Char
  compare_index : Nat
  last_update_sent_bytes : Nat
  occurences : List Occurence
deriving DecidableEq, Repr

/-- The loop variables as initialised at src/ui.rs lines 388-400. -/
def initialState : ScanState :=
  { line_number := 1, line_character_offset := 0, line_byte_offset := 0,
    total_byte_offset := 0, found := [], compare_index := 0,
    last_update_sent_bytes := 0, occurences := [] }

/-- One Message::ScanUpdate (src/ui.rs lines 24-27 and 409-414). -/
structure Batch where
  now_scanned : Nat
  occurences : List Occurence
deriving DecidableEq, Repr

/-- Ghost record of one Occurence construction (src/ui.rs lines 492-497):
the constructed record, the length of the found buffer right after the
matched character was pushed, and the compare_index right after its
increment. -/
structure PushEvent where
  occ : Occurence
  buffer_length : Nat
  match_index : Nat
deriving DecidableEq, Repr

/-- Ghost record of one decoded character: the case-folded character, the
byte length utf8_char_len reported for it, and the four position counters
as they stand right after the counter updates (lines 442-446) and the
newline/separator handling (lines 472-486) for this character. -/
structure TrackEntry where
  ch : Char
  byte_len : Nat
  line_number : Nat
  line_character_offset : Nat
  line_byte_offset : Nat
  total_byte_offset : Nat
deriving DecidableEq, Repr

/-- The ways the loop stops early with an error message (lines 419-467). -/
inductive ScanError where
  | invalidLeadByte
  | truncatedChar
  | invalidSequence
deriving DecidableEq, Repr

/-- How a scan run ends: the stream was exhausted (break at line 423 then
the final send at lines 526-531), an error was sent and the task returned,
or an out-of-bounds Vec index was hit (a Rust panic, line 488).  outOfFuel
is the recursion bound of the embedding; runScan supplies enough fuel that
it is never reached. -/
inductive ScanOutcome where
  | completed
  | errored (e : ScanError)
  | panicked
  | outOfFuel
deriving DecidableEq, Repr

/-- The observable result of a scan run: the ScanUpdate batches in emission
order, the way the run ended, the loop variables at the moment it ended,
and the ghost logs. -/
structure ScanResult where
  batches : List Batch
  outcome : ScanOutcome
  finalState : ScanState
  track : List TrackEntry
  pushes : List PushEvent
deriving DecidableEq, Repr

/-- The periodic update at the top of each loop iteration (src/ui.rs lines
407-416): when more than 1024*1024 bytes were scanned since the last
update, send a batch with the running byte count and the accumulated
occurrences (mem::take empties the accumulator), and remember the count. -/
def periodicFlush (st : ScanState) : ScanState × List Batch :=
  if st.total_byte_offset - st.last_update_sent_bytes > 1024 * 1024 then
    ({ st with occurences := [], last_update_sent_bytes := st.total_byte_offset },
     [{ now_scanned := st.total_byte_offset, occurences := st.occurences }])
  else (st, [])

/-- The counter updates for one character (src/ui.rs lines 441-446),
performed as soon as the leading byte announced the length. -/
def advanceCounters (len : Nat) (st : ScanState) : ScanState :=
  { st with
    line_character_offset := st.line_character_offset + 1,
    line_byte_offset := st.line_byte_offset + len,
    total_byte_offset := st.total_byte_offset + len }

/-- The newline / separator handling (src/ui.rs lines 472-486), applied to
the already case-folded character: a newline advances the line counter,
zeroes both in-line offsets and resets the matcher; a character equal to
the separator resets the matcher only. -/
def boundaryStep (sep : Char) (c : Char) (st : ScanState) : ScanState :=
  if c = '\n' then
    { st with line_number := st.line_number + 1, line_character_offset := 0,
              line_byte_offset := 0, compare_index := 0, found := [] }
  else if c = sep then
    { st with compare_index := 0, found := [] }
  else st

/-- The while loop at src/ui.rs lines 511-521 (entered with compare_index
reset to 0 at line 509): pop characters off the front of the buffer until
the remaining buffer agrees with the pattern position by position (the loop
compares found[i] with search_chars[i] for i below the buffer length,
restarting from 0 after every pop); it stops with compare_index equal to
the remaining buffer length, or 0 once the buffer is emptied. -/
def resyncLoop (sc : List Char) : List Char → List Char × Nat
  | [] => ([], 0)
  | c :: rest =>
      if c :: rest = sc.take (c :: rest).length then (c :: rest, (c :: rest).length)
      else resyncLoop sc rest

/-- The fall-through after a mismatch or a completed match (src/ui.rs lines
503-523): when the buffer is empty, continue unchanged (line 503); else pop
the front (line 507), run the while loop (lines 509-521), then clear the
buffer (line 523) while keeping the compare_index the loop produced. -/
def postMatch (sc : List Char) (found : List Char) (ci : Nat) : List Char × Nat :=
  if found.length = 0 then (found, ci)
  else
    let r := resyncLoop sc (found.drop 1)
    ([], r.2)

/-- The matcher section for one character (src/ui.rs lines 488-524), on the
already case-folded character after the boundary handling.  none models the
Rust index panic when compare_index is out of bounds of search_chars (only
possible for an empty pattern).  On success it returns the updated state
and the ghost list of Occurence constructions in this step. -/
def matchStep (sc : List Char) (c : Char) (st : ScanState) :
    Option (ScanState × List PushEvent) :=
  match sc[st.compare_index]? with
  | none => none
  | some pc =>
      if c = pc then
        let found1 := st.found ++ [c]
        let ci1 := st.compare_index + 1
        if ci1 ≥ sc.length then
          let occ : Occurence :=
            { line_number := st.line_number,
              line_character_offset := st.line_character_offset,
              line_byte_offset := st.line_byte_offset,
              total_byte_offset := st.total_byte_offset }
          let p := postMatch sc found1 ci1
          some ({ st with found := p.1, compare_index := p.2,
                          occurences := st.occurences ++ [occ] },
                [{ occ := occ, buffer_length := found1.length, match_index := ci1 }])
        else
          some ({ st with found := found1, compare_index := ci1 }, [])
      else
        let p := postMatch sc st.found st.compare_index
        some ({ st with found := p.1, compare_index := p.2 }, [])

/-- The scan loop (src/ui.rs lines 402-533), one recursive call per
iteration: periodic update check, read of the leading byte (end of input
breaks out to the final send), length determination, counter updates, read
of the continuation bytes, UTF-8 validation, case folding, boundary
handling and the matcher.  The fuel argument only bounds the recursion;
runScan passes bytes.length + 1, which always suffices because every
iteration consumes at least one byte. -/
def scanGo (sc : List Char) (sep : Char) : Nat → List Nat → ScanState → ScanResult
  | 0, _, st => { batches := [], outcome := .outOfFuel, finalState := st,
                  track := [], pushes := [] }
  | fuel + 1, bytes, st =>
    let fp := periodicFlush st
    let st1 := fp.1
    match bytes with
    | [] =>
        { batches := fp.2 ++ [{ now_scanned := st1.total_byte_offset,
                                occurences := st1.occurences }],
          outcome := .completed, finalState := st1, track := [], pushes := [] }
    | first_byte :: rest =>
        match utf8_char_len first_byte with
        | none =>
            { batches := fp.2, outcome := .errored .invalidLeadByte,
              finalState := st1, track := [], pushes := [] }
        | some len =>
            let st2 := advanceCounters len st1
            if rest.length < len - 1 then
              { batches := fp.2, outcome := .errored .truncatedChar,
                finalState := st2, track := [], pushes := [] }
            else
              match decodeUtf8 first_byte (rest.take (len - 1)) with
              | none =>
                  { batches := fp.2, outcome := .errored .invalidSequence,
                    finalState := st2, track := [], pushes := [] }
              | some c0 =>
                  let c := toLowerChar c0
                  let st3 := boundaryStep sep c st2
                  let entry : TrackEntry :=
                    { ch := c, byte_len := len, line_number := st3.line_number,
                      line_character_offset := st3.line_character_offset,
                      line_byte_offset := st3.line_byte_offset,
                      total_byte_offset := st3.total_byte_offset }
                  match matchStep sc c st3 with
                  | none =>
                      { batches := fp.2, outcome := .panicked, finalState := st3,
                        track := [entry], pushes := [] }
                  | some (st4, p) =>
                      let r := scanGo sc sep fuel (rest.drop (len - 1)) st4
                      { batches := fp.2 ++ r.batches, outcome := r.outcome,
                        finalState := r.finalState, track := entry :: r.track,
                        pushes := p ++ r.pushes }

/-- UI::start_scan (src/ui.rs lines 367-537): lowercase the search string
once (line 387), then run the loop from the initial counters over the whole
byte stream. -/
def runScan (search_string : List Char) (sep : Char) (bytes : List Nat) : ScanResult :=
  scanGo (search_string.map toLowerChar) sep (bytes.length + 1) bytes initialState

/-- The guard of the Message::StartScan handler (src/ui.rs lines 126-145):
a scan is started exactly when a file is selected; the handler performs no
check on the search string (the search_string argument is not consulted). -/
def startScanStarts (selected : Option (List Char)) (_search_string : List Char) : Bool :=
  selected.isSome

/-- All occurrences carried by a list of batches, in batch order. -/
def occsOf (bs : List Batch) : List Occurence :=
  bs.foldr (fun b acc => b.occurences ++ acc) []

/-- All occurrences a run delivered over its batches, in delivery order. -/
def allOccs (r : ScanResult) : List Occurence := occsOf r.batches

/-- Running partial sums starting from a base: addPartial t [a, b, c] is
[t + a, t + a + b, t + a + b + c]. -/
def addPartial (t : Nat) : List Nat → List Nat
  | [] => []
  | x :: xs => (t + x) :: addPartial (t + x) xs

/-- Partial sums of a list of byte lengths. -/
def partialSums (l : List Nat) : List Nat := addPartial 0 l

/-- The track is consistent from base t: every entry's total byte offset is
the previous total plus that entry's byte length. -/
def trackConsistent : Nat → List TrackEntry → Prop
  | _, [] => True
  | t, e :: es => e.total_byte_offset = t + e.byte_len ∧ trackConsistent e.total_byte_offset es

/-- Relation between consecutive track entries for the line accounting: a
newline entry advances the line number by exactly one and has both in-line
offsets zero; any other entry keeps the line number. -/
def lineStepRel (a b : TrackEntry) : Prop :=
  (b.ch = '\n' → b.line_number = a.line_number + 1 ∧
      b.line_character_offset = 0 ∧ b.line_byte_offset = 0)
  ∧ (b.ch ≠ '\n' → b.line_number = a.line_number)

/-- Pseudo track entry for the state before the first character: line 1,
all offsets 0 (the character field is never consulted for it). -/
def initTrackEntry : TrackEntry :=
  { ch := ' ', byte_len := 0, line_number := 1, line_character_offset := 0,
    line_byte_offset := 0, total_byte_offset := 0 }

lemma utf8_char_len_pos {b n : Nat} (h : utf8_char_len b = some n) : 0 < n := by
  unfold utf8_char_len at h
  split at h <;> first
    | (injection h with h; omega)
    | (split at h <;> first
        | (injection h with h; omega)
        | (split at h <;> first
            | (injection h with h; omega)
            | (split at h <;> [skip; cases h]; injection h with h; omega)))

lemma pf_cases (st : ScanState) :
    (st.total_byte_offset - st.last_update_sent_bytes ≤ 1024 * 1024 ∧
      periodicFlush st = (st, []))
    ∨ (1024 * 1024 < st.total_byte_offset - st.last_update_sent_bytes ∧
      periodicFlush st =
        ({ st with occurences := [], last_update_sent_bytes := st.total_byte_offset },
         [{ now_scanned := st.total_byte_offset, occurences := st.occurences }])) := by
  unfold periodicFlush
  by_cases h : st.total_byte_offset - st.last_update_sent_bytes > 1024 * 1024
  · exact Or.inr ⟨h, by rw [if_pos h]⟩
  · exact Or.inl ⟨by omega, by rw [if_neg h]⟩

lemma bs_cases (sep c : Char) (st : ScanState) :
    (c = '\n' ∧ boundaryStep sep c st =
      { st with line_number := st.line_number + 1, line_character_offset := 0,
                line_byte_offset := 0, compare_index := 0, found := [] })
    ∨ (c ≠ '\n' ∧ c = sep ∧ boundaryStep sep c st =
      { st with compare_index := 0, found := [] })
    ∨ (c ≠ '\n' ∧ c ≠ sep ∧ boundaryStep sep c st = st) := by
  unfold boundaryStep
  by_cases h1 : c = '\n'
  · exact Or.inl ⟨h1, by rw [if_pos h1]⟩
  · by_cases h2 : c = sep
    · exact Or.inr (Or.inl ⟨h1, h2, by rw [if_neg h1, if_pos h2]⟩)
    · exact Or.inr (Or.inr ⟨h1, h2, by rw [if_neg h1, if_neg h2]⟩)

lemma matchStep_spec {sc : List Char} {c : Char} {st st' : ScanState}
    {p : List PushEvent} (h : matchStep sc c st = some (st', p)) :
    st'.line_number = st.line_number ∧
    st'.line_character_offset = st.line_character_offset ∧
    st'.line_byte_offset = st.line_byte_offset ∧
    st'.total_byte_offset = st.total_byte_offset ∧
    st'.last_update_sent_bytes = st.last_update_sent_bytes ∧
    st'.occurences = st.occurences ++ p.map PushEvent.occ ∧
    (∀ ev ∈ p, ev.match_index = sc.length) := by
  have hlt : st.compare_index < sc.length := by
    by_contra hx
    push_neg at hx
    unfold matchStep at h
    rw [List.getElem?_eq_none hx] at h
    cases h
  unfold matchStep at h
  rcases hg : sc[st.compare_index]? with _ | pc
  · rw [hg] at h; cases h
  · rw [hg] at h
    dsimp only at h
    by_cases hc : c = pc
    · rw [if_pos hc] at h
      by_cases hci : st.compare_index + 1 ≥ sc.length
      · rw [if_pos hci] at h
        simp only [Option.some.injEq, Prod.mk.injEq] at h
        obtain ⟨h1, h2⟩ := h
        subst h1; subst h2
        refine ⟨rfl, rfl, rfl, rfl, rfl, by simp, ?_⟩
        intro ev hev
        simp only [List.mem_singleton] at hev
        subst hev
        simp only []
        omega
      · rw [if_neg hci] at h
        simp only [Option.some.injEq, Prod.mk.injEq] at h
        obtain ⟨h1, h2⟩ := h
        subst h1; subst h2
        exact ⟨rfl, rfl, rfl, rfl, rfl, by simp, by intro ev hev; cases hev⟩
    · rw [if_neg hc] at h
      simp only [Option.some.injEq, Prod.mk.injEq] at h
      obtain ⟨h1, h2⟩ := h
      subst h1; subst h2
      exact ⟨rfl, rfl, rfl, rfl, rfl, by simp, by intro ev hev; cases hev⟩

lemma occsOf_append (l1 l2 : List Batch) :
    occsOf (l1 ++ l2) = occsOf l1 ++ occsOf l2 := by
  induction l1 with
  | nil => simp [occsOf]
  | cons b l ih => simp [occsOf, List.foldr_cons] at ih ⊢; rw [ih]

lemma chain_of_chain_cons {r : Nat → Nat → Prop} {a : Nat} {l : List Nat}
    (h : List.Chain r a l) : List.Chain' r l := by
  cases l with
  | nil => simp
  | cons b l => exact (List.chain_cons.mp h).2

lemma getLast?_append_right {l1 l2 : List Batch} {a : Batch}
    (h : l2.getLast? = some a) : (l1 ++ l2).getLast? = some a := by
  rw [List.getLast?_append, h]
  rfl

lemma pf_not_fired {st : ScanState}
    (h : st.total_byte_offset - st.last_update_sent_bytes ≤ 1024 * 1024) :
    periodicFlush st = (st, []) := by
  unfold periodicFlush
  rw [if_neg (by omega)]

lemma pf_fired {st : ScanState}
    (h : 1024 * 1024 < st.total_byte_offset - st.last_update_sent_bytes) :
    periodicFlush st =
      ({ st with occurences := [], last_update_sent_bytes := st.total_byte_offset },
       [{ now_scanned := st.total_byte_offset, occurences := st.occurences }]) := by
  unfold periodicFlush
  rw [if_pos (by omega)]

lemma pf_fst_total (st : ScanState) :
    (periodicFlush st).1.total_byte_offset = st.total_byte_offset := by
  unfold periodicFlush
  split <;> rfl

lemma pf_fst_line (st : ScanState) :
    (periodicFlush st).1.line_number = st.line_number := by
  unfold periodicFlush
  split <;> rfl

lemma adv_total (len : Nat) (st : ScanState) :
    (advanceCounters len st).total_byte_offset = st.total_byte_offset + len := rfl

lemma adv_line (len : Nat) (st : ScanState) :
    (advanceCounters len st).line_number = st.line_number := rfl

lemma adv_last (len : Nat) (st : ScanState) :
    (advanceCounters len st).last_update_sent_bytes = st.last_update_sent_bytes := rfl

lemma adv_occ (len : Nat) (st : ScanState) :
    (advanceCounters len st).occurences = st.occurences := rfl

lemma bs_total (sep c : Char) (st : ScanState) :
    (boundaryStep sep c st).total_byte_offset = st.total_byte_offset := by
  unfold boundaryStep
  split
  · rfl
  · split <;> rfl

lemma bs_last (sep c : Char) (st : ScanState) :
    (boundaryStep sep c st).last_update_sent_bytes = st.last_update_sent_bytes := by
  unfold boundaryStep
  split
  · rfl
  · split <;> rfl

lemma bs_occ (sep c : Char) (st : ScanState) :
    (boundaryStep sep c st).occurences = st.occurences := by
  unfold boundaryStep
  split
  · rfl
  · split <;> rfl

/-- Unfolding of one loop iteration in the ordinary case: a character was
decoded and the matcher did not hit an out-of-bounds index. -/
lemma scanGo_step (sc : List Char) (sep : Char) (fuel : Nat) (b : Nat)
    (rest : List Nat) (st : ScanState) {len : Nat} {c0 : Char}
    {st4 : ScanState} {p : List PushEvent}
    (hu : utf8_char_len b = some len) (htr : ¬ rest.length < len - 1)
    (hdec : decodeUtf8 b (rest.take (len - 1)) = some c0)
    (hms : matchStep sc (toLowerChar c0)
        (boundaryStep sep (toLowerChar c0)
          (advanceCounters len (periodicFlush st).1)) = some (st4, p)) :
    scanGo sc sep (fuel + 1) (b :: rest) st =
      (let st3 := boundaryStep sep (toLowerChar c0)
          (advanceCounters len (periodicFlush st).1)
       let r := scanGo sc sep fuel (rest.drop (len - 1)) st4
       { batches := (periodicFlush st).2 ++ r.batches, outcome := r.outcome,
         finalState := r.finalState,
         track := { ch := toLowerChar c0, byte_len := len,
                    line_number := st3.line_number,
                    line_character_offset := st3.line_character_offset,
                    line_byte_offset := st3.line_byte_offset,
                    total_byte_offset := st3.total_byte_offset } :: r.track,
         pushes := p ++ r.pushes }) := by
  conv_lhs => rw [scanGo]
  simp only [hu, if_neg htr, hdec, hms]

/-- Unfolding of one loop iteration when the matcher hits an out-of-bounds
index of search_chars (only possible for an empty pattern). -/
lemma scanGo_panic (sc : List Char) (sep : Char) (fuel : Nat) (b : Nat)
    (rest : List Nat) (st : ScanState) {len : Nat} {c0 : Char}
    (hu : utf8_char_len b = some len) (htr : ¬ rest.length < len - 1)
    (hdec : decodeUtf8 b (rest.take (len - 1)) = some c0)
    (hms : matchStep sc (toLowerChar c0)
        (boundaryStep sep (toLowerChar c0)
          (advanceCounters len (periodicFlush st).1)) = none) :
    scanGo sc sep (fuel + 1) (b :: rest) st =
      (let st3 := boundaryStep sep (toLowerChar c0)
          (advanceCounters len (periodicFlush st).1)
       { batches := (periodicFlush st).2, outcome := .panicked, finalState := st3,
         track := [{ ch := toLowerChar c0, byte_len := len,
                     line_number := st3.line_number,
                     line_character_offset := st3.line_character_offset,
                     line_byte_offset := st3.line_byte_offset,
                     total_byte_offset := st3.total_byte_offset }],
         pushes := [] }) := by
  conv_lhs => rw [scanGo]
  simp only [hu, if_neg htr, hdec, hms]

lemma occsOf_nil : occsOf [] = [] := rfl

lemma occsOf_singleton (bb : Batch) : occsOf [bb] = bb.occurences := by
  simp [occsOf]

/-- The track entry recorded for one decoded character satisfies the line
relation with respect to any preceding entry that carries the line number
as it stood before the character. -/
lemma lineRel_entry (sep : Char) (c0 : Char) (len : Nat)
    (st : ScanState) (e0 : TrackEntry) (he0 : e0.line_number = st.line_number) :
    lineStepRel e0
      { ch := toLowerChar c0, byte_len := len,
        line_number := (boundaryStep sep (toLowerChar c0)
          (advanceCounters len (periodicFlush st).1)).line_number,
        line_character_offset := (boundaryStep sep (toLowerChar c0)
          (advanceCounters len (periodicFlush st).1)).line_character_offset,
        line_byte_offset := (boundaryStep sep (toLowerChar c0)
          (advanceCounters len (periodicFlush st).1)).line_byte_offset,
        total_byte_offset := (boundaryStep sep (toLowerChar c0)
          (advanceCounters len (periodicFlush st).1)).total_byte_offset } := by
  have hline : (advanceCounters len (periodicFlush st).1).line_number = st.line_number := by
    rw [adv_line, pf_fst_line]
  rcases bs_cases sep (toLowerChar c0) (advanceCounters len (periodicFlush st).1) with
      ⟨hc, hbs⟩ | ⟨hc, hsep, hbs⟩ | ⟨hc, hsep, hbs⟩
  · refine ⟨fun _ => ?_, fun hne => absurd hc hne⟩
    rw [hbs]
    refine ⟨?_, rfl, rfl⟩
    dsimp only
    omega
  · refine ⟨fun hch => absurd hch hc, fun _ => ?_⟩
    rw [hbs]
    dsimp only
    omega
  · refine ⟨fun hch => absurd hch hc, fun _ => ?_⟩
    rw [hbs]
    dsimp only
    omega

/-- The combined loop invariants, proved in one induction over the fuel:
batch byte counts grow monotonically from the last-update mark; on normal
completion the concatenation of all batches is the pending occurrences
followed by the constructions in discovery order; every construction
happens at match index equal to the pattern length; the track is
consistent byte accounting; consecutive track entries respect the line
discipline; on completion the final total counts exactly the input bytes
and the last batch carries the final total and the occurrences of the
final flush. -/
lemma scanGo_invariants (sc : List Char) (sep : Char) :
    ∀ (fuel : Nat) (bytes : List Nat) (st : ScanState),
    (st.last_update_sent_bytes ≤ st.total_byte_offset →
      List.Chain (fun a b => a ≤ b) st.last_update_sent_bytes
        ((scanGo sc sep fuel bytes st).batches.map Batch.now_scanned))
    ∧ ((scanGo sc sep fuel bytes st).outcome = .completed →
        allOccs (scanGo sc sep fuel bytes st) =
          st.occurences ++ (scanGo sc sep fuel bytes st).pushes.map PushEvent.occ)
    ∧ (∀ ev ∈ (scanGo sc sep fuel bytes st).pushes, ev.match_index = sc.length)
    ∧ trackConsistent st.total_byte_offset (scanGo sc sep fuel bytes st).track
    ∧ (∀ e0 : TrackEntry, e0.line_number = st.line_number →
        List.Chain lineStepRel e0 (scanGo sc sep fuel bytes st).track)
    ∧ ((scanGo sc sep fuel bytes st).outcome = .completed →
        (scanGo sc sep fuel bytes st).finalState.total_byte_offset =
          st.total_byte_offset + bytes.length)
    ∧ ((scanGo sc sep fuel bytes st).outcome = .completed →
        (scanGo sc sep fuel bytes st).batches.getLast? =
          some { now_scanned := (scanGo sc sep fuel bytes st).finalState.total_byte_offset,
                 occurences := (scanGo sc sep fuel bytes st).finalState.occurences }) := by
  intro fuel
  induction fuel with
  | zero =>
      intro bytes st
      refine ⟨?_, ?_, ?_, ?_, ?_, ?_, ?_⟩ <;>
        simp [scanGo, trackConsistent, allOccs, occsOf]
  | succ fuel ih =>
      intro bytes st
      cases bytes with
      | nil =>
          rcases pf_cases st with ⟨hpf, hpfeq⟩ | ⟨hpf, hpfeq⟩
          · simp only [scanGo, hpfeq]
            refine ⟨?_, ?_, ?_, ?_, ?_, ?_, ?_⟩
            · intro hle
              simpa using List.Chain.cons hle List.Chain.nil
            · intro _
              simp [allOccs, occsOf]
            · simp
            · simp [trackConsistent]
            · intro e0 _
              simp [List.Chain]
            · intro _
              simp
            · intro _
              simp
          · simp only [scanGo, hpfeq]
            refine ⟨?_, ?_, ?_, ?_, ?_, ?_, ?_⟩
            · intro hle
              simpa using List.Chain.cons hle (List.Chain.cons le_rfl List.Chain.nil)
            · intro _
              simp [allOccs, occsOf]
            · simp
            · simp [trackConsistent]
            · intro e0 _
              simp [List.Chain]
            · intro _
              simp
            · intro _
              simp [List.getLast?_concat]
      | cons b rest =>
          rcases hu : utf8_char_len b with _ | len
          · rcases pf_cases st with ⟨hpf, hpfeq⟩ | ⟨hpf, hpfeq⟩ <;>
              · simp only [scanGo, hpfeq, hu]
                refine ⟨?_, ?_, ?_, ?_, ?_, ?_, ?_⟩ <;>
                  first
                  | (intro hle
                     first
                     | simpa using List.Chain.cons hle List.Chain.nil
                     | simp_all)
                  | simp [trackConsistent]
                  | (intro e0 _; simp [List.Chain])
                  | simp
          · have hlen1 : 0 < len := utf8_char_len_pos hu
            by_cases htr : rest.length < len - 1
            · rcases pf_cases st with ⟨hpf, hpfeq⟩ | ⟨hpf, hpfeq⟩ <;>
                · simp only [scanGo, hpfeq, hu, if_pos htr]
                  refine ⟨?_, ?_, ?_, ?_, ?_, ?_, ?_⟩ <;>
                    first
                    | (intro hle
                       first
                       | simpa using List.Chain.cons hle List.Chain.nil
                       | simp_all)
                    | simp [trackConsistent]
                    | (intro e0 _; simp [List.Chain])
                    | simp
            · rcases hdec : decodeUtf8 b (rest.take (len - 1)) with _ | c0
              · rcases pf_cases st with ⟨hpf, hpfeq⟩ | ⟨hpf, hpfeq⟩ <;>
                  · simp only [scanGo, hpfeq, hu, if_neg htr, hdec]
                    refine ⟨?_, ?_, ?_, ?_, ?_, ?_, ?_⟩ <;>
                      first
                      | (intro hle
                         first
                         | simpa using List.Chain.cons hle List.Chain.nil
                         | simp_all)
                      | simp [trackConsistent]
                      | (intro e0 _; simp [List.Chain])
                      | simp
              · rcases hms : matchStep sc (toLowerChar c0)
                    (boundaryStep sep (toLowerChar c0)
                      (advanceCounters len (periodicFlush st).1)) with _ | ⟨st4, p⟩
                · rw [scanGo_panic sc sep fuel b rest st hu htr hdec hms]
                  dsimp only
                  have h3total : (boundaryStep sep (toLowerChar c0)
                      (advanceCounters len (periodicFlush st).1)).total_byte_offset =
                      st.total_byte_offset + len := by
                    rw [bs_total, adv_total, pf_fst_total]
                  refine ⟨?_, ?_, ?_, ?_, ?_, ?_, ?_⟩
                  · intro hle
                    rcases pf_cases st with ⟨hpf, hpfeq⟩ | ⟨hpf, hpfeq⟩ <;>
                        rw [hpfeq] <;> dsimp only
                    · exact List.Chain.nil
                    · simpa using List.Chain.cons hle List.Chain.nil
                  · intro hc
                    simp at hc
                  · intro ev hev
                    simp at hev
                  · exact ⟨h3total, trivial⟩
                  · intro e0 he0
                    exact List.chain_cons.mpr ⟨lineRel_entry sep c0 len st e0 he0,
                      List.Chain.nil⟩
                  · intro hc
                    simp at hc
                  · intro hc
                    simp at hc
                · rw [scanGo_step sc sep fuel b rest st hu htr hdec hms]
                  dsimp only
                  obtain ⟨msLine, msLco, msLbo, msTotal, msLast, msOcc, msPush⟩ :=
                    matchStep_spec hms
                  obtain ⟨ihChain, ihOccs, ihPush, ihTrack, ihLine, ihTotal, ihLast⟩ :=
                    ih (rest.drop (len - 1)) st4
                  have h3total : (boundaryStep sep (toLowerChar c0)
                      (advanceCounters len (periodicFlush st).1)).total_byte_offset =
                      st.total_byte_offset + len := by
                    rw [bs_total, adv_total, pf_fst_total]
                  have h4total : st4.total_byte_offset = st.total_byte_offset + len := by
                    rw [msTotal, h3total]
                  have h4last : st4.last_update_sent_bytes =
                      (periodicFlush st).1.last_update_sent_bytes := by
                    rw [msLast, bs_last, adv_last]
                  have h4occ : st4.occurences =
                      (periodicFlush st).1.occurences ++ p.map PushEvent.occ := by
                    rw [msOcc, bs_occ, adv_occ]
                  refine ⟨?_, ?_, ?_, ?_, ?_, ?_, ?_⟩
                  · intro hle
                    rcases pf_cases st with ⟨hpf, hpfeq⟩ | ⟨hpf, hpfeq⟩
                    · rw [hpfeq]
                      dsimp only
                      rw [List.nil_append]
                      have hl : st4.last_update_sent_bytes = st.last_update_sent_bytes := by
                        rw [h4last, hpfeq]
                      have hch := ihChain (by rw [hl, h4total]; omega)
                      rw [hl] at hch
                      exact hch
                    · rw [hpfeq]
                      dsimp only
                      simp only [List.singleton_append, List.map_cons]
                      refine List.Chain.cons hle ?_
                      have hl : st4.last_update_sent_bytes = st.total_byte_offset := by
                        rw [h4last, hpfeq]
                      have hch := ihChain (by rw [hl, h4total]; omega)
                      rw [hl] at hch
                      exact hch
                  · intro hc
                    specialize ihOccs hc
                    rcases pf_cases st with ⟨hpf, hpfeq⟩ | ⟨hpf, hpfeq⟩ <;>
                        rw [hpfeq] <;> dsimp only <;>
                        simp only [allOccs] at ihOccs ⊢
                    · rw [List.nil_append, ihOccs, h4occ, hpfeq]
                      simp [List.map_append, List.append_assoc]
                    · rw [occsOf_append, occsOf_singleton, ihOccs, h4occ, hpfeq]
                      simp [List.map_append, List.append_assoc]
                  · intro ev hev
                    rcases List.mem_append.mp hev with h | h
                    · exact msPush ev h
                    · exact ihPush ev h
                  · simp only [trackConsistent]
                    refine ⟨h3total, ?_⟩
                    have heq : (boundaryStep sep (toLowerChar c0)
                        (advanceCounters len (periodicFlush st).1)).total_byte_offset =
                        st4.total_byte_offset := by
                      rw [h3total, h4total]
                    rw [heq]
                    exact ihTrack
                  · intro e0 he0
                    refine List.chain_cons.mpr ⟨lineRel_entry sep c0 len st e0 he0, ?_⟩
                    refine ihLine _ ?_
                    rw [msLine]
                  · intro hc
                    specialize ihTotal hc
                    rw [ihTotal, h4total, List.length_drop]
                    simp only [List.length_cons]
                    omega
                  · intro hc
                    exact getLast?_append_right (ihLast hc)

lemma tc_map {tr : List TrackEntry} : ∀ t0, trackConsistent t0 tr →
    tr.map TrackEntry.total_byte_offset = addPartial t0 (tr.map TrackEntry.byte_len) := by
  induction tr with
  | nil => intro t0 _; rfl
  | cons e es ih =>
      intro t0 h
      obtain ⟨h1, h2⟩ := h
      simp only [List.map_cons, addPartial, List.cons.injEq]
      exact ⟨h1, by rw [← h1]; exact ih _ h2⟩

lemma tc_chain {tr : List TrackEntry} : ∀ t0, trackConsistent t0 tr →
    List.Chain (fun a b => a ≤ b) t0 (tr.map TrackEntry.total_byte_offset) := by
  induction tr with
  | nil => intro t0 _; exact List.Chain.nil
  | cons e es ih =>
      intro t0 h
      obtain ⟨h1, h2⟩ := h
      exact List.Chain.cons (by omega) (ih _ h2)

lemma toLowerChar_toNat_of_upper {c : Char} (h1 : 'A' ≤ c) (h2 : c ≤ 'Z') :
    (toLowerChar c).toNat = c.toNat + 32 := by
  have hc1 : 65 ≤ c.toNat := h1
  have hc2 : c.toNat ≤ 90 := h2
  unfold toLowerChar
  rw [if_pos ⟨h1, h2⟩]
  generalize hn : c.toNat = n at hc1 hc2
  interval_cases n <;> decide

/-- The case-folded image of any character is never an uppercase ASCII
letter: folded uppercase letters land in the lowercase range, all other
characters are untouched and hence not uppercase themselves. -/
lemma toLowerChar_ne_upper {s c : Char} (h1 : 'A' ≤ s) (h2 : s ≤ 'Z') :
    toLowerChar c ≠ s := by
  have hs1 : 65 ≤ s.toNat := h1
  have hs2 : s.toNat ≤ 90 := h2
  intro heq
  by_cases hc : 'A' ≤ c ∧ c ≤ 'Z'
  · have hc1 : 65 ≤ c.toNat := hc.1
    have hnat := toLowerChar_toNat_of_upper hc.1 hc.2
    rw [heq] at hnat
    omega
  · rw [toLowerChar, if_neg hc] at heq
    subst heq
    exact hc ⟨h1, h2⟩

lemma toLowerChar_ne_newline {c : Char} (h : c ≠ '\n') : toLowerChar c ≠ '\n' := by
  by_cases hc : 'A' ≤ c ∧ c ≤ 'Z'
  · intro heq
    have hc1 : 65 ≤ c.toNat := hc.1
    have hc2 : c.toNat ≤ 90 := hc.2
    have hnat := toLowerChar_toNat_of_upper hc.1 hc.2
    rw [heq] at hnat
    have h10 : ('\n').toNat = 10 := by decide
    omega
  · rw [toLowerChar, if_neg hc]
    exact h

/-- Scanning k one-byte characters 97 (the letter a) for the pattern b with
separator comma never matches, never resets, and emits at most the one
periodic batch the final top-of-loop check produces once the threshold is
crossed, followed by the final flush with the same byte count. -/
lemma replicate_run : ∀ (k fuel t ln lco lbo : Nat), k < fuel → t + k ≤ 1048577 →
    (scanGo ['b'] ',' fuel (List.replicate k 97)
      { line_number := ln, line_character_offset := lco, line_byte_offset := lbo,
        total_byte_offset := t, found := [], compare_index := 0,
        last_update_sent_bytes := 0, occurences := [] }).batches =
      (if 1048576 < t + k then
        [{ now_scanned := t + k, occurences := [] },
         { now_scanned := t + k, occurences := [] }]
      else [{ now_scanned := t + k, occurences := [] }]) := by
  intro k
  induction k with
  | zero =>
      intro fuel t ln lco lbo hf ht
      cases fuel with
      | zero => exact absurd hf (Nat.not_lt_zero _)
      | succ f =>
          rw [List.replicate_zero]
          simp only [Nat.add_zero]
          by_cases hlt : 1048576 < t
          · have hpf := @pf_fired
              { line_number := ln, line_character_offset := lco,
                line_byte_offset := lbo, total_byte_offset := t, found := [],
                compare_index := 0, last_update_sent_bytes := 0, occurences := [] }
              (by show 1024 * 1024 < t - 0; omega)
            rw [if_pos hlt]
            simp only [scanGo, hpf]
            simp
          · have hpf := @pf_not_fired
              { line_number := ln, line_character_offset := lco,
                line_byte_offset := lbo, total_byte_offset := t, found := [],
                compare_index := 0, last_update_sent_bytes := 0, occurences := [] }
              (by show t - 0 ≤ 1024 * 1024; omega)
            rw [if_neg hlt]
            simp only [scanGo, hpf]
            simp
  | succ k ihk =>
      intro fuel t ln lco lbo hf ht
      cases fuel with
      | zero => exact absurd hf (Nat.not_lt_zero _)
      | succ f =>
          rw [List.replicate_succ]
          have hpf : periodicFlush
              { line_number := ln, line_character_offset := lco,
                line_byte_offset := lbo, total_byte_offset := t, found := [],
                compare_index := 0, last_update_sent_bytes := 0, occurences := [] } =
              ({ line_number := ln, line_character_offset := lco,
                 line_byte_offset := lbo, total_byte_offset := t, found := [],
                 compare_index := 0, last_update_sent_bytes := 0, occurences := [] }, []) :=
            pf_not_fired (by show t - 0 ≤ 1024 * 1024; omega)
          have hms : matchStep ['b'] (toLowerChar 'a')
              (boundaryStep ',' (toLowerChar 'a')
                (advanceCounters 1 (periodicFlush
                  { line_number := ln, line_character_offset := lco,
                    line_byte_offset := lbo, total_byte_offset := t, found := [],
                    compare_index := 0, last_update_sent_bytes := 0,
                    occurences := [] }).1)) =
              some ({ line_number := ln, line_character_offset := lco + 1,
                      line_byte_offset := lbo + 1, total_byte_offset := t + 1,
                      found := [], compare_index := 0, last_update_sent_bytes := 0,
                      occurences := [] }, []) := by
            rw [hpf]
            rfl
          rw [scanGo_step ['b'] ',' f 97 (List.replicate k 97) _ rfl
              (by omega) rfl hms]
          dsimp only
          rw [hpf]
          dsimp only
          rw [List.nil_append]
          have hih := ihk f (t + 1) ln (lco + 1) (lbo + 1) (by omega) (by omega)
          have harith : t + 1 + k = t + (k + 1) := by omega
          rw [harith] at hih
          exact hih

/-- C1 counterexample: scanning the input aaaa (bytes 97 97 97 97) for the
pattern aa yields two Occurences (at characters 2 and 3), not the three the
claim states: the restart after the second occurrence has lost the overlap
because the matcher cleared its buffer at the end of the previous
resynchronisation, so the occurrence covering characters 3-4 is missed. -/
theorem c1_counterexample :
    allOccs (runScan ['a', 'a'] ',' [97, 97, 97, 97]) =
      [{ line_number := 1, line_character_offset := 2, line_byte_offset := 2,
         total_byte_offset := 2 },
       { line_number := 1, line_character_offset := 3, line_byte_offset := 3,
         total_byte_offset := 3 }] ∧
    (allOccs (runScan ['a', 'a'] ',' [97, 97, 97, 97])).length ≠ 3 := by
  constructor
  · decide
  · decide

/-- C1 (amended): a complete scan of aaaa for the pattern aa emits exactly
2 Occurences, covering character positions 1-2 and 2-3; the occurrence
covering 3-4 is not found because the resynchronisation after a completed
match clears the tentative buffer, so only one level of overlap is kept. -/
theorem c1_claim :
    allOccs (runScan ['a', 'a'] ',' [97, 97, 97, 97]) =
      [{ line_number := 1, line_character_offset := 2, line_byte_offset := 2,
         total_byte_offset := 2 },
       { line_number := 1, line_character_offset := 3, line_byte_offset := 3,
         total_byte_offset := 3 }] ∧
    (runScan ['a', 'a'] ',' [97, 97, 97, 97]).outcome = .completed := by
  constructor
  · decide
  · decide

/-- C2: the Message::StartScan handler starts a scan whenever a file is
selected, with no validation of the search string, and the scan of a
non-empty file with an empty search string reaches the out-of-bounds
index search_chars[0], a Rust panic: the empty search string is not
rejected and a fatal condition is reachable. -/
theorem c2_claim :
    startScanStarts (some ['f']) [] = true ∧
    (runScan [] ',' [97]).outcome = .panicked := by
  constructor
  · decide
  · decide

/-- C3 counterexample: with the uppercase separator A, the decoded
character A (byte 65) equals the raw separator, yet no matcher reset
happens: the code folds the character to lowercase a before the
comparison, so the boundary step leaves the matcher state alone and a
match of the pattern aa completes straddling the separator character. -/
theorem c3_counterexample :
    boundaryStep 'A' (toLowerChar 'A')
        { initialState with found := ['a'], compare_index := 1 } =
      { initialState with found := ['a'], compare_index := 1 } ∧
    allOccs (runScan ['a', 'a'] 'A' [97, 65]) =
      [{ line_number := 1, line_character_offset := 2, line_byte_offset := 2,
         total_byte_offset := 2 }] := by
  constructor
  · decide
  · decide

/-- C3 (amended): the separator comparison is performed on the case-folded
character against the raw separator, so a separator that is an uppercase
ASCII letter never triggers the reset: for any decoded character other
than a newline the boundary step leaves the state unchanged. -/
theorem c3_claim (sep c : Char) (st : ScanState)
    (h1 : 'A' ≤ sep) (h2 : sep ≤ 'Z') (h3 : c ≠ '\n') :
    boundaryStep sep (toLowerChar c) st = st := by
  unfold boundaryStep
  rw [if_neg (toLowerChar_ne_newline h3), if_neg (toLowerChar_ne_upper h1 h2)]

/-- Witness for c3_claim at the separator A and the character A. -/
theorem c3_claim_witness :
    ('A' : Char) ≤ 'A' ∧ ('A' : Char) ≤ 'Z' ∧ ('A' : Char) ≠ '\n' ∧
    boundaryStep 'A' (toLowerChar 'A')
        { initialState with found := ['b'], compare_index := 1 } =
      { initialState with found := ['b'], compare_index := 1 } :=
  ⟨by decide, by decide, by decide,
    c3_claim 'A' 'A' { initialState with found := ['b'], compare_index := 1 }
      (by decide) (by decide) (by decide)⟩

/-- C4 counterexample: scanning 1048577 one-byte characters for a pattern
that never matches crosses the 1 MiB threshold at the final top-of-loop
check, emitting a periodic batch with byte count 1048577, and the final
flush then repeats the same byte count, so the batch sequence is not
strictly increasing. -/
theorem c4_counterexample :
    ¬ List.Chain' (fun a b => a < b)
        ((runScan ['b'] ',' (List.replicate 1048577 97)).batches.map
          Batch.now_scanned) := by
  have h := replicate_run 1048577 1048578 0 1 0 0 (by omega) (by omega)
  rw [if_pos (by omega)] at h
  have e3 : runScan ['b'] ',' (List.replicate 1048577 97) =
      scanGo ['b'] ',' 1048578 (List.replicate 1048577 97)
        { line_number := 1, line_character_offset := 0, line_byte_offset := 0,
          total_byte_offset := 0, found := [], compare_index := 0,
          last_update_sent_bytes := 0, occurences := [] } := by
    unfold runScan
    rw [List.length_replicate]
    rfl
  rw [e3, h]
  intro hch
  simp only [List.map_cons, List.map_nil] at hch
  rw [List.chain'_cons] at hch
  obtain ⟨h1, _⟩ := hch
  omega

/-- C4 (amended): batch byte counts are monotonically non-decreasing (the
final flush may repeat the byte count of an immediately preceding periodic
batch), and on normal completion the concatenation of all batches equals
the full sequence of Occurence constructions in discovery order, so no
batching step reorders, drops or duplicates occurrences. -/
theorem c4_claim (ss : List Char) (sep : Char) (bytes : List Nat) :
    List.Chain' (fun a b => a ≤ b)
      ((runScan ss sep bytes).batches.map Batch.now_scanned)
    ∧ ((runScan ss sep bytes).outcome = .completed →
        allOccs (runScan ss sep bytes) =
          (runScan ss sep bytes).pushes.map PushEvent.occ) := by
  obtain ⟨hchain, hocc, _, _, _, _, _⟩ :=
    scanGo_invariants (ss.map toLowerChar) sep (bytes.length + 1) bytes initialState
  refine ⟨chain_of_chain_cons (hchain (Nat.le_refl 0)), ?_⟩
  intro hc
  simpa using hocc hc

/-- Witness for c4_claim on a completed two-byte scan. -/
theorem c4_claim_witness :
    List.Chain' (fun a b => a ≤ b)
      ((runScan ['a'] ',' [97, 97]).batches.map Batch.now_scanned)
    ∧ allOccs (runScan ['a'] ',' [97, 97]) =
        (runScan ['a'] ',' [97, 97]).pushes.map PushEvent.occ :=
  ⟨(c4_claim ['a'] ',' [97, 97]).1,
   (c4_claim ['a'] ',' [97, 97]).2 (by decide)⟩

/-- C5 counterexample: scanning aaa for the pattern aa constructs two
Occurences; at the second construction the tentative buffer holds a single
character, not the two the pattern has, because the buffer was cleared at
the end of the previous resynchronisation. -/
theorem c5_counterexample :
    ¬ (∀ ev ∈ (runScan ['a', 'a'] ',' [97, 97, 97]).pushes,
        ev.buffer_length = (['a', 'a'] : List Char).length) := by
  decide

/-- C5 (amended): an Occurence is only ever constructed when the matcher's
compare index (just incremented for the matched character) equals the
length of the search pattern; the buffer length at construction equals the
pattern length minus the overlap retained from the previous
resynchronisation. -/
theorem c5_claim (ss : List Char) (sep : Char) (bytes : List Nat) :
    ∀ ev ∈ (runScan ss sep bytes).pushes, ev.match_index = ss.length := by
  obtain ⟨_, _, hp, _, _, _, _⟩ :=
    scanGo_invariants (ss.map toLowerChar) sep (bytes.length + 1) bytes initialState
  intro ev hev
  rw [hp ev hev, List.length_map]

/-- Witness for c5_claim on the first occurrence of a completed scan. -/
theorem c5_claim_witness :
    ({ occ := { line_number := 1, line_character_offset := 2,
                line_byte_offset := 2, total_byte_offset := 2 },
       buffer_length := 2, match_index := 2 } : PushEvent) ∈
        (runScan ['a', 'a'] ',' [97, 97]).pushes ∧
    ({ occ := { line_number := 1, line_character_offset := 2,
                line_byte_offset := 2, total_byte_offset := 2 },
       buffer_length := 2, match_index := 2 } : PushEvent).match_index =
      (['a', 'a'] : List Char).length :=
  ⟨by decide, c5_claim ['a', 'a'] ',' [97, 97] _ (by decide)⟩

/-- C6: for every input, pattern and separator, the running total byte
offset recorded after each decoded character equals the partial sum of the
byte lengths consumed for the characters so far, the recorded totals are
monotonically non-decreasing, and on normal completion the final total
equals the number of input bytes. -/
theorem c6_claim (ss : List Char) (sep : Char) (bytes : List Nat) :
    (runScan ss sep bytes).track.map TrackEntry.total_byte_offset =
      partialSums ((runScan ss sep bytes).track.map TrackEntry.byte_len)
    ∧ List.Chain' (fun a b => a ≤ b)
        ((runScan ss sep bytes).track.map TrackEntry.total_byte_offset)
    ∧ ((runScan ss sep bytes).outcome = .completed →
        (runScan ss sep bytes).finalState.total_byte_offset = bytes.length) := by
  obtain ⟨_, _, _, htr, _, htot, _⟩ :=
    scanGo_invariants (ss.map toLowerChar) sep (bytes.length + 1) bytes initialState
  refine ⟨tc_map 0 htr, chain_of_chain_cons (tc_chain 0 htr), ?_⟩
  intro hc
  have h2 := htot hc
  have h0 : initialState.total_byte_offset = 0 := rfl
  rw [h0] at h2
  simpa using h2

/-- Witness for c6_claim on a completed two-byte scan. -/
theorem c6_claim_witness :
    (runScan ['a'] ',' [97, 97]).finalState.total_byte_offset =
      ([97, 97] : List Nat).length :=
  (c6_claim ['a'] ',' [97, 97]).2.2 (by decide)

/-- C7: in every run the line tracking starts at line 1 and consecutive
per-character records obey the newline discipline: a newline character
advances the line number by exactly one and leaves both in-line offsets at
zero immediately afterwards, and any other character keeps the line
number. -/
theorem c7_claim (ss : List Char) (sep : Char) (bytes : List Nat) :
    List.Chain lineStepRel initTrackEntry (runScan ss sep bytes).track := by
  obtain ⟨_, _, _, _, hline, _, _⟩ :=
    scanGo_invariants (ss.map toLowerChar) sep (bytes.length + 1) bytes initialState
  exact hline initTrackEntry rfl

/-- C8: the top-of-loop check emits a batch exactly when more than
1024*1024 bytes accumulated since the last emitted batch, and that batch
carries the running byte count and all accumulated occurrences; when the
stream is exhausted below the threshold the final flush alone is emitted
with the final count and the pending occurrences; and every normally
completed run ends with a batch carrying the final byte count and the
occurrences handed to the final flush. -/
theorem c8_claim :
    (∀ (sc : List Char) (sep : Char) (fuel : Nat) (bytes : List Nat) (st : ScanState),
        1024 * 1024 < st.total_byte_offset - st.last_update_sent_bytes →
        (scanGo sc sep (fuel + 1) bytes st).batches.head? =
          some { now_scanned := st.total_byte_offset, occurences := st.occurences })
    ∧ (∀ (sc : List Char) (sep : Char) (fuel : Nat) (st : ScanState),
        st.total_byte_offset - st.last_update_sent_bytes ≤ 1024 * 1024 →
        scanGo sc sep (fuel + 1) [] st =
          { batches := [{ now_scanned := st.total_byte_offset,
                          occurences := st.occurences }],
            outcome := .completed, finalState := st, track := [], pushes := [] })
    ∧ (∀ (ss : List Char) (sep : Char) (bytes : List Nat),
        (runScan ss sep bytes).outcome = .completed →
        (runScan ss sep bytes).batches.getLast? =
          some { now_scanned := (runScan ss sep bytes).finalState.total_byte_offset,
                 occurences := (runScan ss sep bytes).finalState.occurences }) := by
  refine ⟨?_, ?_, ?_⟩
  · intro sc sep fuel bytes st h
    have hpf := pf_fired h
    cases bytes with
    | nil =>
        simp only [scanGo, hpf]
        rfl
    | cons b rest =>
        rcases hu : utf8_char_len b with _ | len
        · simp only [scanGo, hpf, hu]
          rfl
        · by_cases htr : rest.length < len - 1
          · simp only [scanGo, hpf, hu, if_pos htr]
            rfl
          · rcases hdec : decodeUtf8 b (rest.take (len - 1)) with _ | c0
            · simp only [scanGo, hpf, hu, if_neg htr, hdec]
              rfl
            · rcases hms : matchStep sc (toLowerChar c0)
                  (boundaryStep sep (toLowerChar c0)
                    (advanceCounters len (periodicFlush st).1)) with _ | ⟨st4, p⟩
              · rw [scanGo_panic sc sep fuel b rest st hu htr hdec hms]
                dsimp only
                rw [hpf]
                rfl
              · rw [scanGo_step sc sep fuel b rest st hu htr hdec hms]
                dsimp only
                rw [hpf]
                rfl
  · intro sc sep fuel st h
    have hpf := pf_not_fired h
    simp only [scanGo, hpf]
    rw [List.nil_append]
  · intro ss sep bytes hc
    obtain ⟨_, _, _, _, _, _, hlast⟩ :=
      scanGo_invariants (ss.map toLowerChar) sep (bytes.length + 1) bytes initialState
    exact hlast hc

/-- Witness for c8_claim: a state past the threshold emits its batch at
the head; an exhausted stream below the threshold emits only the final
flush; a completed one-byte run ends with the final-flush batch. -/
theorem c8_claim_witness :
    (scanGo ['a'] ',' 1 []
        { initialState with total_byte_offset := 2000000 }).batches.head? =
      some { now_scanned := 2000000, occurences := [] } ∧
    scanGo ['a'] ',' 1 [] initialState =
      { batches := [{ now_scanned := 0, occurences := [] }],
        outcome := .completed, finalState := initialState, track := [], pushes := [] } ∧
    (runScan ['a'] ',' [97]).batches.getLast? =
      some { now_scanned := (runScan ['a'] ',' [97]).finalState.total_byte_offset,
             occurences := (runScan ['a'] ',' [97]).finalState.occurences } :=
  ⟨c8_claim.1 ['a'] ',' 0 [] _ (by decide),
   c8_claim.2.1 ['a'] ',' 0 initialState (by decide),
   c8_claim.2.2 ['a'] ',' [97] (by decide)⟩

/-- C9: when the leading byte of a character matches no valid UTF-8 length
pattern (for example a bare continuation byte), the iteration reports the
encoding error and the scan stops at that byte: the result does not depend
on the bytes after the failure point, so no further Occurences are emitted
for them, and the batches contain no final flush, only a periodic batch
the same iteration may have emitted beforehand, so occurrences accumulated
since the last flush are discarded. -/
theorem c9_claim (sc : List Char) (sep : Char) (fuel : Nat) (b : Nat)
    (rest : List Nat) (st : ScanState) (h : utf8_char_len b = none) :
    scanGo sc sep (fuel + 1) (b :: rest) st =
      { batches := (periodicFlush st).2, outcome := .errored .invalidLeadByte,
        finalState := (periodicFlush st).1, track := [], pushes := [] } := by
  conv_lhs => rw [scanGo]
  simp only [h]

/-- Witness for c9_claim: the continuation byte 128 with a byte after it. -/
theorem c9_claim_witness :
    utf8_char_len 128 = none ∧
    scanGo ['a'] ',' 2 (128 :: [97]) initialState =
      { batches := (periodicFlush initialState).2,
        outcome := .errored .invalidLeadByte,
        finalState := (periodicFlush initialState).1, track := [], pushes := [] } :=
  ⟨by decide, c9_claim ['a'] ',' 1 128 [97] initialState (by decide)⟩

/-- C10: a character that mismatches at a nonzero match index is dropped
without being re-compared against the start of the pattern: scanning aab
(bytes 97 97 98) for the pattern ab emits no Occurence and constructs
none, even though the pattern occurs in the input (dropping the first
input byte leaves exactly the pattern bytes 97 98). -/
theorem c10_claim :
    allOccs (runScan ['a', 'b'] ',' [97, 97, 98]) = [] ∧
    (runScan ['a', 'b'] ',' [97, 97, 98]).pushes = [] ∧
    (runScan ['a', 'b'] ',' [97, 97, 98]).outcome = .completed ∧
    ([97, 97, 98] : List Nat).drop 1 = [97, 98] := by
  refine ⟨by decide, by decide, by decide, by decide⟩

end CsvScan
